import Mathlib

/-!
# Verification of the zzprint invoice-printing core

A shallow embedding of the core logic of `src/zzprint.py` (class
`PrintingEngine` and the query/export paths of `ZZPrinterApp`), together
with theorems settling the specification claims about it.

Conventions of the embedding:
* Python dicts keyed by invoice number are `List (String × InvRecord)`
  in insertion order (Python 3.7+ dict semantics).
* Record / item fields keep the source's JSON keys, transliterated; the
  original Chinese key is noted next to each field.
* Monetary values are exact decimals `Dec` (an integer numerator over a
  power of ten).  Every number the program derives from an invoice token
  is such a decimal, Python's binary `float` represents the two-decimal
  amounts the claims touch after `%.2f` formatting exactly, and the
  program only adds, sums and reformats them, so `Dec` models the
  source's float values faithfully on all claim-relevant inputs.
* `datetime.now()` is an explicit `now : String` argument (the source
  formats it as `yyyy/mm/dd HH:MM`, which orders lexicographically).
* File-system success/failure is an explicit `Bool` argument.
-/

/-! ## String primitives (Python `str` operations used by the source) -/

/-- Characters of a string. -/
def chars (s : String) : List Char := s.toList

/-- Remove every occurrence of the character `c`:
models Python `s.replace(c, "")` for a single-character pattern
(the only replacement form `zzprint.py` uses). -/
def removeChar (c : Char) (s : String) : String :=
  String.mk ((chars s).filter (fun x => x ≠ c))

/-- Python `str.strip()`: drop leading and trailing whitespace. -/
def stripWs (s : String) : String :=
  String.mk ((((chars s).dropWhile Char.isWhitespace).reverse.dropWhile
    Char.isWhitespace).reverse)

/-- Python `str.lower()` (ASCII letters; the CJK text is unaffected). -/
def lowerStr (s : String) : String :=
  String.mk ((chars s).map Char.toLower)

/-- Is `pat` a prefix of `s` (on character lists)? -/
def isPrefixB : List Char → List Char → Bool
  | [], _ => true
  | _ :: _, [] => false
  | a :: pa, b :: sb => a == b && isPrefixB pa sb

/-- Python `pat in s` substring test. -/
def isInfixB : List Char → List Char → Bool
  | pat, [] => pat.isEmpty
  | pat, b :: rest => isPrefixB pat (b :: rest) || isInfixB pat rest

/-- Python `pat in s` on strings. -/
def isSubstr (pat s : String) : Bool :=
  isInfixB (chars pat) (chars s)

/-- Lexicographic comparison of character lists by code point:
Python's `str <` (which `pandas.sort_values` uses on object columns). -/
def charsLt : List Char → List Char → Bool
  | [], [] => false
  | [], _ :: _ => true
  | _ :: _, [] => false
  | a :: s, b :: t =>
    if a < b then true
    else if b < a then false
    else charsLt s t

/-- Python `a < b` on strings. -/
def strLt (a b : String) : Bool := charsLt (chars a) (chars b)

/-- Helper for `tokens`: accumulates the current word (reversed). -/
def tokensAux : List Char → List Char → List String
  | [], cur => if cur.isEmpty then [] else [String.mk cur.reverse]
  | c :: rest, cur =>
    if c.isWhitespace then
      if cur.isEmpty then tokensAux rest []
      else String.mk cur.reverse :: tokensAux rest []
    else tokensAux rest (c :: cur)

/-- Python `str.split()` with no argument: split on whitespace runs,
dropping empty pieces (`line.split()` in `parse_invoice`). -/
def tokens (s : String) : List String := tokensAux (chars s) []

/-! ## Exact decimal numbers -/

/-- An exact decimal: the value `num / 10 ^ scale`.  Representations are
not normalized; the program never compares floats for equality, so every
equation in this file compares values produced by the same computation. -/
structure Dec where
  num : ℤ
  scale : ℕ
deriving DecidableEq, Repr

/-- The decimal 0.0. -/
def decZero : Dec := ⟨0, 0⟩

/-- Exact addition (Python float `+` on the program's decimal amounts,
whose `%.2f`-formatted results coincide with exact decimal addition). -/
def Dec.add (a b : Dec) : Dec :=
  let s := max a.scale b.scale
  ⟨a.num * (10 : ℤ) ^ (s - a.scale) + b.num * (10 : ℤ) ^ (s - b.scale), s⟩

/-- Sum of a list of decimals (`pandas` column `.sum()`). -/
def decSum (l : List Dec) : Dec := l.foldr Dec.add decZero

/-- The value of `d` in cents, rounded to the nearest integer (half away
from zero; >2-decimal ties, whose direction on Python's binary doubles
is value-dependent, never arise in the claims). -/
def Dec.cents (d : Dec) : ℤ :=
  let m := d.num.natAbs * 100
  let k := 10 ^ d.scale
  let c : ℤ := ((2 * m + k) / (2 * k) : ℕ)
  if d.num < 0 then -c else c

/-- Digits to a natural number (most significant first). -/
def digitsToNat (l : List Char) : ℕ :=
  l.foldl (fun acc c => acc * 10 + (c.toNat - '0'.toNat)) 0

/-- Decimal digit characters of `n` padded on the left to `width`. -/
def natDigits (n : ℕ) (width : ℕ) : List Char :=
  List.replicate (width - (chars (toString n)).length) '0' ++ chars (toString n)

/-- Python `f"{x:.2f}"`: fixed two decimal places. -/
def fmt2 (d : Dec) : String :=
  let c := d.cents
  (if c < 0 then "-" else "") ++ toString (c.natAbs / 100) ++ "." ++
    String.mk (natDigits (c.natAbs % 100) 2)

/-- Python `str(x)` for a float holding the exact decimal `d`: integer
part, `'.'`, fractional digits with trailing zeros dropped (`"0"` if
none) — the shortest round-tripping form `repr(float)` prints for the
program's decimal amounts. -/
def floatRepr (d : Dec) : String :=
  let m := d.num.natAbs
  let k := 10 ^ d.scale
  let frac := (natDigits (m % k) d.scale).reverse.dropWhile (fun c => c = '0')
  (if d.num < 0 then "-" else "") ++ toString (m / k) ++ "." ++
    (if frac.isEmpty then "0" else String.mk frac.reverse)

/-- Python `float(s)` on the plain decimal forms invoice tokens take:
optional surrounding whitespace, optional sign, an integer part and/or a
fractional part separated by `'.'`.  (Exponents and `inf`/`nan`, which
never occur in invoice tokens, are outside the modelled subset.) -/
def parseFloat (s : String) : Option Dec :=
  let t := chars (stripWs s)
  let sgn : ℤ × List Char :=
    match t with
    | '-' :: r => (-1, r)
    | '+' :: r => (1, r)
    | _ => (1, t)
  let ip := sgn.2.takeWhile Char.isDigit
  let rest := sgn.2.dropWhile Char.isDigit
  match rest with
  | [] => if ip.isEmpty then none else some ⟨sgn.1 * digitsToNat ip, 0⟩
  | '.' :: frac =>
    if frac.all Char.isDigit && (!ip.isEmpty || !frac.isEmpty) then
      some ⟨sgn.1 * (digitsToNat ip * 10 ^ frac.length + digitsToNat frac),
        frac.length⟩
    else none
  | _ => none

/-- `float(s.replace('￥','').replace(',',''))` from `parse_invoice`. -/
def parseMoney (s : String) : Option Dec :=
  parseFloat (removeChar ',' (removeChar '￥' s))

/-- `PrintingEngine.is_float`: `float(s.replace(',',''))` succeeds. -/
def is_float (s : String) : Bool :=
  (parseFloat (removeChar ',' s)).isSome

/-! ## The line-item extractor (`PrintingEngine.parse_invoice`, detail loop) -/

/-- One detail row of an invoice, the dict appended to
`base_info["items"]` by `PrintingEngine.parse_invoice`.
`spec`/`unit` are `Option` because the aggregate-total fallback item
omits those keys entirely. -/
structure Item where
  name : String           -- "项目名称"
  spec : Option String    -- "规格型号"
  unit : Option String    -- "单位"
  qty : String            -- "数量"
  price : String          -- "单价"
  amt : String            -- "金额" (two-decimal string)
  taxRate : String        -- "税率"
  taxAmt : String         -- "税额" (two-decimal string)
  total : String          -- "合计" (two-decimal string)
deriving DecidableEq, Repr

/-- The candidate-row test of `parse_invoice`:
`any(c.isdigit() for c in line) and ('*' in line or '免税' in line or '.' in line)`. -/
def isCandidate (line : String) : Bool :=
  (chars line).any Char.isDigit &&
    ((chars line).contains '*' || isSubstr "免税" line ||
      (chars line).contains '.')

/-- The tax-amount value read from the last token:
`0.00` if `'***' in tax_amt_str`, else `float` of the stripped token. -/
def taxAmtVal (s : String) : Option Dec :=
  if isSubstr "***" s then some decZero else parseMoney s

/-- The body of `parse_invoice`'s per-line `try` block, applied to the
whitespace tokens of one candidate line.  Values are read from the
right-hand end (`parts[-1]` → tax amount, `parts[-2]` → tax rate,
`parts[-3]` → amount); lines with fewer than 5 tokens are skipped
(`continue`), and a failed numeric parse discards the line
(`except: continue`).  With ≥ 6 tokens a heuristic pulls quantity /
unit price / unit from `parts[-5]`, `parts[-4]`, `parts[-6]`. -/
def parse_parts (parts : List String) : Option Item :=
  if parts.length < 5 then none
  else
    match parts.head?, parts.reverse with
    | some p0, t1 :: t2 :: t3 :: rest =>
      match taxAmtVal t1, parseMoney t3 with
      | some taxAmt, some amt =>
        let dflt : String × String × String := ("1", "无", floatRepr amt)
        let qup : String × String × String :=
          match rest with
          | t4 :: t5 :: t6 :: _ =>
            if is_float t4 && is_float t5 then
              (t5, if !is_float t6 then t6 else "无", t4)
            else dflt
          | _ => dflt
        some { name := p0, spec := some "无", unit := some qup.2.1
               qty := qup.1, price := qup.2.2, amt := fmt2 amt
               taxRate := t2, taxAmt := fmt2 taxAmt
               total := fmt2 (amt.add taxAmt) }
      | _, _ => none
    | _, _ => none

/-- One iteration of the detail-row loop of `parse_invoice`: a line
yields an item iff it passes the candidate test and its tokens parse. -/
def parse_line (line : String) : Option Item :=
  if isCandidate line then parse_parts (tokens line) else none

/-- The whole detail-row loop: failed lines are skipped, order kept. -/
def parse_items (lines : List String) : List Item :=
  lines.filterMap parse_line

/-! ## The ledger store (`PrintingEngine.load_ledger` / `save_ledger`) -/

/-- One invoice record, the dict stored in the ledger JSON object.
`printDate`/`items` are `Option` so that a persisted legacy record that
lacks those keys is representable (`none` = key absent). -/
structure InvRecord where
  invoiceNumber : String      -- "发票号码"
  issueDate : String          -- "开票日期"
  selfProduced : String       -- "自产农产品销售"
  buyerName : String          -- "购买方名称"
  buyerTaxId : String         -- "购买方税号"
  sellerName : String         -- "销售方名称"
  sellerTaxId : String        -- "销售方税号"
  remarks : String            -- "备注"
  fileName : String           -- "文件名"
  printDate : Option String   -- "打印日期"
  items : Option (List Item)  -- "items"
deriving DecidableEq, Repr

/-- The ledger JSON object: invoice number → record, insertion-ordered. -/
abbrev Ledger := List (String × InvRecord)

/-- Python dict assignment `d[k] = v`: replace in place if the key
exists, else append. -/
def dictInsert (k : String) (v : InvRecord) : Ledger → Ledger
  | [] => [(k, v)]
  | (k', v') :: t =>
    if k' = k then (k, v) :: t else (k', v') :: dictInsert k v t

/-- Python dict lookup `d.get(k)`. -/
def dictFind (k : String) : Ledger → Option InvRecord
  | [] => none
  | (k', v) :: t => if k' = k then some v else dictFind k t

/-- Python `k in d`. -/
def hasKey (k : String) : Ledger → Bool
  | [] => false
  | (k', _) :: t => if k' = k then true else hasKey k t

/-- Number of entries stored under key `k`. -/
def countKey (k : String) : Ledger → ℕ
  | [] => 0
  | (k', _) :: t => (if k' = k then 1 else 0) + countKey k t

/-- The persistent state of `PrintingEngine`: the in-memory dict
`self.ledger` and the JSON content of the ledger file on disk. -/
structure LedgerState where
  ledger : Ledger
  file : Ledger
deriving DecidableEq, Repr

/-- `PrintingEngine.load_ledger`: return the parsed file content as is;
an absent file or a deserialization failure yields `{}`.  No field of
any record is inspected or rewritten. -/
def load_ledger (fileExists parseOk : Bool) (content : Ledger) : Ledger :=
  if fileExists then (if parseOk then content else []) else []

/-- `PrintingEngine.save_ledger`: a no-op when the invoice number is the
sentinel `"未知"`; otherwise stamp `info["打印日期"] := now`, assign the
record into the in-memory dict, then rewrite the whole ledger file.
`writeOk = false` models `open`/`json.dump` failing: the dict was
already mutated, the file keeps its previous content, and the returned
flag is `false` (in the source an uncaught exception propagates to the
caller at that point). -/
def save_ledger (st : LedgerState) (info : InvRecord) (now : String)
    (writeOk : Bool) : LedgerState × Bool :=
  if info.invoiceNumber ≠ "未知" then
    let r := { info with printDate := some now }
    let mem := dictInsert r.invoiceNumber r st.ledger
    if writeOk then ({ ledger := mem, file := mem }, true)
    else ({ ledger := mem, file := st.file }, false)
  else (st, true)

/-! ## The layout engine (`PrintingEngine.create_layout`) -/

/-- `self.layout_map.get(layout_desc, (1, 1))`: grid description →
`(rows, cols)` as unpacked by `create_layout`. -/
def layout_map (desc : String) : ℕ × ℕ :=
  if desc = "1×1" then (1, 1)
  else if desc = "1×2" then (2, 1)
  else if desc = "1×3" then (3, 1)
  else if desc = "2×2" then (2, 2)
  else if desc = "2×3" then (3, 2)
  else if desc = "2×4" then (4, 2)
  else (1, 1)

/-- Cells per page for a grid description. -/
def gridSize (desc : String) : ℕ := (layout_map desc).1 * (layout_map desc).2

/-- `expanded = [f for f in input_files for _ in range(copies)]`. -/
def expand (input_files : List String) (copies : ℕ) : List String :=
  input_files.flatMap (fun f => List.replicate copies f)

/-- Split `l` into consecutive chunks of `per` elements (the loop
`for i in range(0, len(expanded), rows*cols)`); `fuel` only bounds the
recursion and is instantiated with `l.length`. -/
def chunksGo (per : ℕ) : ℕ → List String → List (List String)
  | _, [] => []
  | 0, _ => []
  | fuel + 1, l => l.take per :: chunksGo per fuel (l.drop per)

/-- `PrintingEngine.create_layout`, modelled as the page/cell assignment
it renders: page `p` holds its chunk's documents at cell indices
`0, 1, …` (`for idx, f_path in enumerate(batch)`), and a cell beyond the
chunk stays blank (`none`). -/
def create_layout (input_files : List String) (layout_desc : String)
    (copies : ℕ) : List (List (Option String)) :=
  let per := gridSize layout_desc
  let expanded := expand input_files copies
  (chunksGo per expanded.length expanded).map
    (fun batch => (List.range per).map (fun j => batch[j]?))

/-- The document rendered at cell `j` of page `p` (`none` = blank or no
such page). -/
def pageCell (pages : List (List (Option String))) (p j : ℕ) :
    Option String :=
  match pages[p]? with
  | none => none
  | some pg => (pg[j]?).getD none

/-- `r, c = divmod(idx, cols)`: the grid position a cell index is
rendered at. -/
def posOf (cols idx : ℕ) : ℕ × ℕ := (idx / cols, idx % cols)

/-! ## The query engine (`ZZPrinterApp.get_data_frame` / `refresh_table`
/ `export_excel`) -/

/-- One flattened row of the data frame built by `get_data_frame`:
`row = base.copy(); del row["items"]; row.update(item)`, with the
`"金额"` / `"税额"` / `"合计"` strings coerced to floats (`0.0` on parse
failure) and `"价税合计"` set equal to the coerced `"合计"` (so `total`
serves both keys). -/
structure Row where
  invoiceNumber : String      -- "发票号码"
  issueDate : String          -- "开票日期"
  selfProduced : String       -- "自产农产品销售"
  buyerName : String          -- "购买方名称"
  buyerTaxId : String         -- "购买方税号"
  sellerName : String         -- "销售方名称"
  sellerTaxId : String        -- "销售方税号"
  remarks : String            -- "备注"
  fileName : String           -- "文件名"
  printDate : Option String   -- "打印日期"
  name : String               -- "项目名称"
  spec : Option String        -- "规格型号"
  unit : Option String        -- "单位"
  qty : String                -- "数量"
  price : String              -- "单价"
  taxRate : String            -- "税率"
  amt : Dec                   -- "金额"
  tax : Dec                   -- "税额"
  total : Dec                 -- "合计" and "价税合计"
deriving DecidableEq, Repr

/-- Flatten one record and one of its line items into a display row. -/
def flattenRow (base : InvRecord) (it : Item) : Row :=
  { invoiceNumber := base.invoiceNumber
    issueDate := base.issueDate
    selfProduced := base.selfProduced
    buyerName := base.buyerName
    buyerTaxId := base.buyerTaxId
    sellerName := base.sellerName
    sellerTaxId := base.sellerTaxId
    remarks := base.remarks
    fileName := base.fileName
    printDate := base.printDate
    name := it.name
    spec := it.spec
    unit := it.unit
    qty := it.qty
    price := it.price
    taxRate := it.taxRate
    amt := (parseFloat it.amt).getD decZero
    tax := (parseFloat it.taxAmt).getD decZero
    total := (parseFloat it.total).getD decZero }

/-- The seller filter key: `search_seller.text().strip().lower()`. -/
def sellerKeyOf (raw : String) : String := lowerStr (stripWs raw)

/-- The date filter key:
`search_date.text().strip().replace("-","").replace("年","").replace("月","")`. -/
def dateKeyOf (raw : String) : String :=
  removeChar '月' (removeChar '年' (removeChar '-' (stripWs raw)))

/-- The filter test of `get_data_frame`:
`seller_key in base["销售方名称"].lower() and
 date_key in base["开票日期"].replace("/","").replace("-","")`. -/
def filterMatch (base : InvRecord) (sellerRaw dateRaw : String) : Bool :=
  isSubstr (sellerKeyOf sellerRaw) (lowerStr base.sellerName) &&
    isSubstr (dateKeyOf dateRaw)
      (removeChar '-' (removeChar '/' base.issueDate))

/-- `ZZPrinterApp.get_data_frame`: iterate the ledger in order, keep the
records passing both filters, and emit one row per line item (a record
without an `"items"` key contributes no rows). -/
def get_data_frame (ledger : Ledger) (sellerRaw dateRaw : String) :
    List Row :=
  ledger.flatMap (fun p =>
    if filterMatch p.2 sellerRaw dateRaw then
      (p.2.items.getD []).map (flattenRow p.2)
    else [])

/-- The grouped-mode sort key of `refresh_table`:
`df.sort_values(by=["销售方名称", "打印日期"], ascending=[True, False])` —
seller name ascending, then print date descending (a missing print date
sorts as the empty string). -/
def rowLe (r1 r2 : Row) : Bool :=
  strLt r1.sellerName r2.sellerName ||
    (r1.sellerName == r2.sellerName &&
      !strLt (r1.printDate.getD "") (r2.printDate.getD ""))

/-- Stable insertion of a row into a sorted list (earlier rows stay
before later equal-key rows, as in pandas' stable multi-column sort). -/
def insertRow (a : Row) : List Row → List Row
  | [] => [a]
  | b :: t => if rowLe a b then a :: b :: t else b :: insertRow a t

/-- Stable sort of the data frame by `rowLe`. -/
def sortRows : List Row → List Row
  | [] => []
  | a :: t => insertRow a (sortRows t)

/-- First-encountered-order deduplication (`pandas.groupby(sort=False)`
group order); `seen` holds the keys already emitted. -/
def dedupFirstAux (seen : List String) : List String → List String
  | [] => []
  | a :: t =>
    if a ∈ seen then dedupFirstAux seen t
    else a :: dedupFirstAux (a :: seen) t

/-- Group keys in order of first appearance. -/
def dedupFirst (l : List String) : List String := dedupFirstAux [] l

/-- Seller group order of `df.groupby("销售方名称", sort=False)`. -/
def sellerOrder (rows : List Row) : List String :=
  dedupFirst (rows.map Row.sellerName)

/-- One row of the on-screen table in grouped mode: a data row, or the
subtotal row `_insert_sum_row` builds for a seller (label
`f"【{seller}】 总计"`, with the sums of the `"金额"` / `"税额"` /
`"价税合计"` columns over the group). -/
inductive DisplayRow where
  | data (r : Row)
  | subtotal (seller : String) (amtSum taxSum totalSum : Dec)
deriving DecidableEq, Repr

/-- The subtotal row for seller `n` over that seller's rows. -/
def mkSubtotal (n : String) (g : List Row) : DisplayRow :=
  .subtotal n (decSum (g.map Row.amt)) (decSum (g.map Row.tax))
    (decSum (g.map Row.total))

/-- The seller a subtotal row belongs to (`none` for data rows). -/
def subtotalSeller : DisplayRow → Option String
  | .data _ => none
  | .subtotal n _ _ _ => some n

/-- Is this a data (non-summary) row? -/
def isDataRow : DisplayRow → Bool
  | .data _ => true
  | .subtotal _ _ _ _ => false

/-- `ZZPrinterApp.refresh_table` in grouped mode at summary level 1
(`bySeller`): sort the filtered frame by seller ↑ / print date ↓, group
by seller with `sort=False`, and for each group emit its data rows
followed by its subtotal row. -/
def groupedDisplay (ledger : Ledger) (sellerRaw dateRaw : String) :
    List DisplayRow :=
  let rows := sortRows (get_data_frame ledger sellerRaw dateRaw)
  (sellerOrder rows).flatMap (fun n =>
    let g := rows.filter (fun r => r.sellerName == n)
    g.map DisplayRow.data ++ [mkSubtotal n g])

/-! ## The export formatter (`ZZPrinterApp.export_excel`) -/

/-- One spreadsheet cell: a string or a float column value. -/
inductive Cell where
  | s (v : String)
  | q (v : Dec)
deriving DecidableEq, Repr

/-- Column lookup on a flattened row by serialized key; `none` means the
key is structurally absent from the row's dict. -/
def rowGet (r : Row) (c : String) : Option Cell :=
  if c = "发票号码" then some (.s r.invoiceNumber)
  else if c = "打印日期" then r.printDate.map Cell.s
  else if c = "开票日期" then some (.s r.issueDate)
  else if c = "销售方名称" then some (.s r.sellerName)
  else if c = "销售方税号" then some (.s r.sellerTaxId)
  else if c = "购买方名称" then some (.s r.buyerName)
  else if c = "自产农产品销售" then some (.s r.selfProduced)
  else if c = "项目名称" then some (.s r.name)
  else if c = "规格型号" then r.spec.map Cell.s
  else if c = "单位" then r.unit.map Cell.s
  else if c = "数量" then some (.s r.qty)
  else if c = "单价" then some (.s r.price)
  else if c = "金额" then some (.q r.amt)
  else if c = "税率" then some (.s r.taxRate)
  else if c = "税额" then some (.q r.tax)
  else if c = "价税合计" then some (.q r.total)
  else if c = "备注" then some (.s r.remarks)
  else if c = "文件名" then some (.s r.fileName)
  else none

/-- The fixed export column order of `export_excel`. -/
def export_cols : List String :=
  ["发票号码", "打印日期", "开票日期", "销售方名称", "销售方税号",
   "购买方名称", "自产农产品销售", "项目名称", "规格型号", "单位",
   "数量", "单价", "金额", "税率", "税额", "价税合计", "备注", "文件名"]

/-- Project one flattened row onto the export columns, filling a
structurally absent column with an empty value
(`if c not in df.columns: df[c] = ""`, and pandas writes a missing cell
of a partially present column as an empty spreadsheet cell). -/
def projectRow (r : Row) : List Cell :=
  export_cols.map (fun c => (rowGet r c).getD (.s ""))

/-- `ZZPrinterApp.export_excel`: the rows written to the tabular file —
exactly the filtered, flattened, ungrouped frame of `get_data_frame`
projected onto `export_cols`; the grouping toggle plays no part. -/
def export_excel_rows (ledger : Ledger) (sellerRaw dateRaw : String) :
    List (List Cell) :=
  (get_data_frame ledger sellerRaw dateRaw).map projectRow

/-! ## Concrete sample data used by the counterexample theorems -/

/-- A plain detail item as `parse_invoice` produces it. -/
def sampleItem : Item :=
  { name := "货物", spec := some "无", unit := some "无", qty := "1"
    price := "10.0", amt := "10.00", taxRate := "3%", taxAmt := "0.30"
    total := "10.30" }

/-- A committed record for seller `"A"`. -/
def sampleRecA : InvRecord :=
  { invoiceNumber := "1001", issueDate := "2026/01/02"
    selfProduced := "否", buyerName := "甲", buyerTaxId := "B1"
    sellerName := "A", sellerTaxId := "SA", remarks := "无"
    fileName := "a.pdf", printDate := some "2026/10/01 09:00"
    items := some [sampleItem] }

/-- A committed record for seller `"B"`. -/
def sampleRecB : InvRecord :=
  { sampleRecA with
    invoiceNumber := "1002"
    sellerName := "B"
    sellerTaxId := "SB"
    fileName := "b.pdf"
    printDate := some "2026/10/02 09:00" }

/-- A ledger whose iteration order meets seller `"B"` first. -/
def sampleLedger : Ledger := [("1002", sampleRecB), ("1001", sampleRecA)]

/-! ## Dictionary lemmas -/

theorem dictFind_insert_self (k : String) (v : InvRecord) (l : Ledger) :
    dictFind k (dictInsert k v l) = some v := by
  induction l with
  | nil => simp [dictInsert, dictFind]
  | cons p t ih =>
    obtain ⟨k1, v1⟩ := p
    by_cases h : k1 = k <;> simp [dictInsert, dictFind, h, ih]

theorem dictFind_insert_ne (k k' : String) (v : InvRecord) (l : Ledger)
    (h : k' ≠ k) : dictFind k' (dictInsert k v l) = dictFind k' l := by
  induction l with
  | nil => simp [dictInsert, dictFind, Ne.symm h]
  | cons p t ih =>
    obtain ⟨k1, v1⟩ := p
    by_cases hp : k1 = k
    · subst hp
      simp [dictInsert, dictFind, Ne.symm h]
    · simp [dictInsert, dictFind, hp, ih]

theorem hasKey_insert_ne (k k' : String) (v : InvRecord) (l : Ledger)
    (h : k' ≠ k) : hasKey k' (dictInsert k v l) = hasKey k' l := by
  induction l with
  | nil => simp [dictInsert, hasKey, Ne.symm h]
  | cons p t ih =>
    obtain ⟨k1, v1⟩ := p
    by_cases hp : k1 = k
    · subst hp
      simp [dictInsert, hasKey, Ne.symm h]
    · simp [dictInsert, hasKey, hp, ih]

theorem countKey_eq_zero (k : String) (l : Ledger)
    (h : k ∉ l.map Prod.fst) : countKey k l = 0 := by
  induction l with
  | nil => rfl
  | cons p t ih =>
    obtain ⟨k1, v1⟩ := p
    simp only [List.map_cons, List.mem_cons] at h
    push_neg at h
    simp [countKey, Ne.symm h.1, ih h.2]

theorem countKey_insert (k : String) (v : InvRecord) (l : Ledger)
    (h : (l.map Prod.fst).Nodup) :
    countKey k (dictInsert k v l) = 1 := by
  induction l with
  | nil => simp [dictInsert, countKey]
  | cons p t ih =>
    obtain ⟨k1, v1⟩ := p
    simp only [List.map_cons, List.nodup_cons] at h
    by_cases hp : k1 = k
    · subst hp
      simp [dictInsert, countKey, countKey_eq_zero k1 t h.1]
    · simp [dictInsert, countKey, hp, ih h.2]

theorem mem_keys_insert (x k : String) (v : InvRecord) (l : Ledger)
    (hm : x ∈ (dictInsert k v l).map Prod.fst) :
    x = k ∨ x ∈ l.map Prod.fst := by
  induction l with
  | nil => simpa [dictInsert] using hm
  | cons p t ih =>
    obtain ⟨k1, v1⟩ := p
    by_cases hp : k1 = k
    · subst hp
      rcases (by simpa [dictInsert] using hm : x = k1 ∨ x ∈ t.map Prod.fst)
        with h1 | h1
      · exact Or.inl h1
      · exact Or.inr (by simp [h1])
    · rcases (by simpa [dictInsert, hp] using hm :
          x = k1 ∨ x ∈ (dictInsert k v t).map Prod.fst) with h1 | h1
      · exact Or.inr (by simp [h1])
      · rcases ih h1 with h2 | h2
        · exact Or.inl h2
        · exact Or.inr (by simp [h2])

theorem keys_nodup_insert (k : String) (v : InvRecord) (l : Ledger)
    (h : (l.map Prod.fst).Nodup) :
    ((dictInsert k v l).map Prod.fst).Nodup := by
  induction l with
  | nil => simp [dictInsert]
  | cons p t ih =>
    obtain ⟨k1, v1⟩ := p
    simp only [List.map_cons, List.nodup_cons] at h
    by_cases hp : k1 = k
    · subst hp
      simp only [dictInsert, eq_self_iff_true, if_true, List.map_cons,
        List.nodup_cons]
      exact ⟨h.1, h.2⟩
    · simp only [dictInsert, if_neg hp, List.map_cons, List.nodup_cons]
      refine ⟨fun hm => ?_, ih h.2⟩
      rcases mem_keys_insert _ _ _ _ hm with h1 | h1
      · exact hp h1
      · exact h.1 h1

/-! ## Claims about the ledger store (C1, C2, C4, C5, C10) -/

/-- A persisted legacy record: it has no `"items"` key and no
`"打印日期"` key. -/
def legacyRec : InvRecord :=
  { invoiceNumber := "100", issueDate := "2024/01/01"
    selfProduced := "否", buyerName := "甲", buyerTaxId := "B9"
    sellerName := "丙", sellerTaxId := "S9", remarks := "无"
    fileName := "old.pdf", printDate := none, items := none }

/-- A record whose invoice number is the extraction-failed sentinel. -/
def unknownRec : InvRecord := { sampleRecA with invoiceNumber := "未知" }

/-- **C1** (code bug): committing record `"1001"` while the ledger file
cannot be written leaves the in-memory ledger holding the new entry
while the last successfully written state does not — the in-memory
ledger diverges from the persisted state instead of staying equal to it,
and the `open(..., 'w')` truncate-then-write the source uses is not an
atomic replacement. -/
theorem save_ledger_write_failure_diverges :
    (save_ledger ⟨[], []⟩ sampleRecA "2026/10/12 09:00" false).2 = false ∧
    dictFind "1001"
        (save_ledger ⟨[], []⟩ sampleRecA "2026/10/12 09:00" false).1.ledger =
      some { sampleRecA with printDate := some "2026/10/12 09:00" } ∧
    dictFind "1001"
        (save_ledger ⟨[], []⟩ sampleRecA "2026/10/12 09:00" false).1.file =
      none ∧
    (save_ledger ⟨[], []⟩ sampleRecA "2026/10/12 09:00" false).1.ledger ≠
      (save_ledger ⟨[], []⟩ sampleRecA "2026/10/12 09:00" false).1.file := by
  decide

/-- **C2** (counterexample): loading a persisted map whose single record
lacks the `lineItems` field returns that record exactly as persisted —
still without line items and still without a processed timestamp; no
synthetic line item is created and no sentinel is filled in. -/
theorem load_ledger_legacy_unmigrated :
    load_ledger true true [("100", legacyRec)] = [("100", legacyRec)] ∧
    legacyRec.items = none ∧ legacyRec.printDate = none := by
  decide

/-- **C2** (amended): `load_ledger` performs no schema migration — a
successfully parsed map is returned exactly as persisted, and an absent
or unparsable file yields the empty ledger. -/
theorem load_ledger_no_migration (content junk : Ledger) :
    load_ledger true true content = content ∧
    load_ledger true false junk = [] ∧
    load_ledger false true junk = [] :=
  ⟨rfl, rfl, rfl⟩

/-- **C4**: committing a record whose invoice number is the sentinel
`"未知"` is a no-op on the whole state, and no commit ever introduces
the sentinel as a ledger key, in memory or on disk. -/
theorem save_ledger_unknown_sentinel (st : LedgerState) (info : InvRecord)
    (now : String) (writeOk : Bool) :
    (info.invoiceNumber = "未知" →
      (save_ledger st info now writeOk).1 = st) ∧
    (hasKey "未知" st.ledger = false →
      hasKey "未知" (save_ledger st info now writeOk).1.ledger = false) ∧
    (hasKey "未知" st.ledger = false → hasKey "未知" st.file = false →
      hasKey "未知" (save_ledger st info now writeOk).1.file = false) := by
  by_cases h : info.invoiceNumber = "未知"
  · simp [save_ledger, h]
  · refine ⟨fun hc => absurd hc h, fun hl => ?_, fun hl hf => ?_⟩
    · cases writeOk <;>
        simp [save_ledger, h, hasKey_insert_ne _ _ _ _ (Ne.symm h), hl]
    · cases writeOk <;>
        simp [save_ledger, h, hasKey_insert_ne _ _ _ _ (Ne.symm h), hl, hf]

/-- Witness for C4 at a concrete sentinel record and empty state. -/
theorem save_ledger_unknown_sentinel_witness :
    (save_ledger ⟨[], []⟩ unknownRec "2026/10/12 09:00" true).1 =
      (⟨[], []⟩ : LedgerState) ∧
    hasKey "未知"
      (save_ledger ⟨[], []⟩ unknownRec "2026/10/12 09:00" true).1.ledger =
      false :=
  ⟨(save_ledger_unknown_sentinel ⟨[], []⟩ unknownRec _ _).1 (by decide),
   (save_ledger_unknown_sentinel ⟨[], []⟩ unknownRec _ _).2.1 (by decide)⟩

/-- **C5**: committing the same record twice (at a strictly later second
timestamp, over a ledger with no duplicate keys) leaves exactly one
persisted entry under its invoice number, holding the second commit's
entire record — whose processed timestamp is the strictly newer `t2` —
and `load` returns that persisted map unchanged. -/
theorem save_twice_last_write_wins (st : LedgerState) (info : InvRecord)
    (t1 t2 : String)
    (hs : info.invoiceNumber ≠ "未知")
    (ht : strLt t1 t2 = true)
    (hnd : (st.ledger.map Prod.fst).Nodup) :
    dictFind info.invoiceNumber (save_ledger st info t1 true).1.file =
      some { info with printDate := some t1 } ∧
    dictFind info.invoiceNumber
        (save_ledger (save_ledger st info t1 true).1 info t2 true).1.file =
      some { info with printDate := some t2 } ∧
    countKey info.invoiceNumber
        (save_ledger (save_ledger st info t1 true).1 info t2 true).1.file
      = 1 ∧
    load_ledger true true
        (save_ledger (save_ledger st info t1 true).1 info t2 true).1.file =
      (save_ledger (save_ledger st info t1 true).1 info t2 true).1.file ∧
    strLt t1 t2 = true := by
  have e1 : save_ledger st info t1 true =
      (⟨dictInsert info.invoiceNumber { info with printDate := some t1 }
          st.ledger,
        dictInsert info.invoiceNumber { info with printDate := some t1 }
          st.ledger⟩, true) := by
    simp [save_ledger, hs]
  have e2 : save_ledger (save_ledger st info t1 true).1 info t2 true =
      (⟨dictInsert info.invoiceNumber { info with printDate := some t2 }
          (dictInsert info.invoiceNumber { info with printDate := some t1 }
            st.ledger),
        dictInsert info.invoiceNumber { info with printDate := some t2 }
          (dictInsert info.invoiceNumber { info with printDate := some t1 }
            st.ledger)⟩, true) := by
    rw [e1]
    simp [save_ledger, hs]
  refine ⟨?_, ?_, ?_, by simp [load_ledger], ht⟩
  · rw [e1]
    exact dictFind_insert_self _ _ _
  · rw [e2]
    exact dictFind_insert_self _ _ _
  · rw [e2]
    exact countKey_insert _ _ _ (keys_nodup_insert _ _ _ hnd)

/-- Witness for C5: record `"1001"` committed at 09:00 then 09:01. -/
theorem save_twice_last_write_wins_witness :
    dictFind sampleRecA.invoiceNumber
        (save_ledger (save_ledger ⟨[], []⟩ sampleRecA "2026/10/12 09:00"
            true).1 sampleRecA "2026/10/12 09:01" true).1.file =
      some { sampleRecA with printDate := some "2026/10/12 09:01" } ∧
    countKey sampleRecA.invoiceNumber
        (save_ledger (save_ledger ⟨[], []⟩ sampleRecA "2026/10/12 09:00"
            true).1 sampleRecA "2026/10/12 09:01" true).1.file = 1 :=
  ⟨(save_twice_last_write_wins ⟨[], []⟩ sampleRecA _ _ (by decide)
      (by decide) (by decide)).2.1,
   (save_twice_last_write_wins ⟨[], []⟩ sampleRecA _ _ (by decide)
      (by decide) (by decide)).2.2.1⟩

/-- **C10**: committing a record with a fresh non-sentinel invoice
number leaves every entry under a different key unchanged, both in the
in-memory dict and in the rewritten ledger file (starting from a state
whose file matches the in-memory ledger, as every reachable steady state
does). -/
theorem save_ledger_frame (st : LedgerState) (info : InvRecord)
    (now k' : String)
    (hs : info.invoiceNumber ≠ "未知")
    (hk : k' ≠ info.invoiceNumber)
    (hsync : st.file = st.ledger) :
    dictFind k' (save_ledger st info now true).1.ledger =
      dictFind k' st.ledger ∧
    dictFind k' (save_ledger st info now true).1.file =
      dictFind k' st.file := by
  have e1 : save_ledger st info now true =
      (⟨dictInsert info.invoiceNumber { info with printDate := some now }
          st.ledger,
        dictInsert info.invoiceNumber { info with printDate := some now }
          st.ledger⟩, true) := by
    simp [save_ledger, hs]
  constructor
  · rw [e1]
    exact dictFind_insert_ne _ _ _ _ hk
  · rw [e1, hsync]
    exact dictFind_insert_ne _ _ _ _ hk

/-- Witness for C10: the entry of `"1001"` survives a commit of
`"1002"` untouched, in memory and on disk. -/
theorem save_ledger_frame_witness :
    dictFind "1001"
        (save_ledger ⟨[("1001", sampleRecA)], [("1001", sampleRecA)]⟩
          sampleRecB "2026/10/12 09:00" true).1.file =
      some sampleRecA :=
  ((save_ledger_frame ⟨[("1001", sampleRecA)], [("1001", sampleRecA)]⟩
      sampleRecB "2026/10/12 09:00" "1001" (by decide) (by decide)
      rfl).2).trans (by decide)

/-! ## Claims about the line-item extractor (C6, C7) -/

/-- **C6** (counterexample): a candidate line whose tax-rate token is
the exemption marker `免税` but whose tax-amount token is the plain
number `5.00` yields a line item with tax amount `5.00`, not zero — the
extractor never consults the tax-rate token when zeroing. -/
theorem parse_line_exemption_not_zeroed :
    isCandidate "货物 x 10.00 免税 5.00" = true ∧
    (parse_line "货物 x 10.00 免税 5.00").map Item.taxRate = some "免税" ∧
    (parse_line "货物 x 10.00 免税 5.00").map Item.taxAmt = some "5.00" ∧
    ("5.00" : String) ≠ "0.00" := by
  decide

/-- **C6** (amended): whenever the tax-amount token of a successfully
parsed candidate line contains the `***` placeholder (in particular,
when it equals it), the produced line item's tax amount is forced to
`"0.00"`; the tax-rate token is never consulted for this. -/
theorem parse_line_placeholder_zero (line : String) (it : Item)
    (tok : String)
    (h1 : parse_line line = some it)
    (h2 : (tokens line).getLast? = some tok)
    (h3 : isSubstr "***" tok = true) :
    it.taxAmt = "0.00" := by
  by_cases hc : isCandidate line = true
  · rw [parse_line, if_pos hc] at h1
    unfold parse_parts at h1
    split at h1
    · exact absurd h1 (by simp)
    · split at h1
      · rename_i t1 t2 t3 rest hh hr
        have htok : tok = t1 := by
          have : (tokens line).getLast? = some t1 := by
            rw [← List.head?_reverse, hr]
            rfl
          rw [h2] at this
          exact Option.some.inj this
        subst htok
        rw [taxAmtVal, if_pos h3] at h1
        split at h1
        · rename_i ta amt hta ham
          have hta0 : ta = decZero :=
            (Option.some.inj hta).symm
          subst hta0
          have := (Option.some.inj h1).symm
          subst this
          show fmt2 decZero = "0.00"
          decide
        · exact absurd h1 (by simp)
      · exact absurd h1 (by simp)
  · rw [parse_line, if_neg hc] at h1
    exact absurd h1 (by simp)

/-- Witness for C6 at a concrete candidate line ending in `***`. -/
theorem parse_line_placeholder_zero_witness :
    parse_line "货物 3 5.00 13% ***" =
      some { name := "货物", spec := some "无", unit := some "无"
             qty := "1", price := "5.0", amt := "5.00", taxRate := "13%"
             taxAmt := "0.00", total := "5.00" } ∧
    ({ name := "货物", spec := some "无", unit := some "无", qty := "1"
       price := "5.0", amt := "5.00", taxRate := "13%", taxAmt := "0.00"
       total := "5.00" } : Item).taxAmt = "0.00" :=
  ⟨by decide,
   parse_line_placeholder_zero "货物 3 5.00 13% ***" _ "***" (by decide)
     (by decide) (by decide)⟩

/-- **C7** (counterexample): a candidate line with four whitespace
tokens whose last three parse as amount / tax rate / tax amount yields
no line item at all — `parse_invoice` skips any line with fewer than
five tokens. -/
theorem parse_line_four_tokens_skipped :
    isCandidate "a1 2.00 3% 0.30" = true ∧
    (tokens "a1 2.00 3% 0.30").length = 4 ∧
    parseMoney "2.00" = some ⟨200, 2⟩ ∧
    taxAmtVal "0.30" = some ⟨30, 2⟩ ∧
    parse_line "a1 2.00 3% 0.30" = none := by
  decide

/-- **C7** (amended): a candidate line with exactly five whitespace
tokens (the only count below six that is not skipped) whose amount and
tax-amount tokens parse yields a line item with quantity defaulting to
`"1"`, unit price defaulting to the amount's decimal string, and
unit/spec remaining the `"无"` sentinel. -/
theorem parse_line_five_tokens (line p0 p1 p2 p3 p4 : String) (a ta : Dec)
    (hc : isCandidate line = true)
    (ht : tokens line = [p0, p1, p2, p3, p4])
    (ha : parseMoney p2 = some a)
    (hta : taxAmtVal p4 = some ta) :
    parse_line line =
      some { name := p0, spec := some "无", unit := some "无", qty := "1"
             price := floatRepr a, amt := fmt2 a, taxRate := p3
             taxAmt := fmt2 ta, total := fmt2 (a.add ta) } := by
  rw [parse_line, if_pos hc, ht]
  simp [parse_parts, ha, hta]

/-- Witness for C7 at a concrete five-token candidate line. -/
theorem parse_line_five_tokens_witness :
    parse_line "货品8 台 2.50 13% 0.33" =
      some { name := "货品8", spec := some "无", unit := some "无"
             qty := "1", price := "2.5", amt := "2.50", taxRate := "13%"
             taxAmt := "0.33", total := "2.83" } := by
  have h := parse_line_five_tokens "货品8 台 2.50 13% 0.33" "货品8" "台"
    "2.50" "13%" "0.33" ⟨250, 2⟩ ⟨33, 2⟩ (by decide) (by decide)
    (by decide) (by decide)
  rw [h]
  decide

/-! ## Claim about the layout engine (C8) -/

theorem gridSize_pos (desc : String) : 0 < gridSize desc := by
  unfold gridSize layout_map
  split_ifs <;> decide

theorem chunksGo_getElem (per : ℕ) (hper : 0 < per) :
    ∀ (fuel : ℕ) (l : List String), l.length ≤ fuel → ∀ p : ℕ,
      (chunksGo per fuel l)[p]? =
        if 0 < (l.drop (p * per)).length
        then some ((l.drop (p * per)).take per) else none := by
  intro fuel
  induction fuel with
  | zero =>
    intro l hl p
    have : l = [] := List.eq_nil_of_length_eq_zero (Nat.le_zero.1 hl)
    subst this
    simp [chunksGo]
  | succ fuel ih =>
    intro l hl p
    cases l with
    | nil => simp [chunksGo]
    | cons x xs =>
      cases p with
      | zero => simp [chunksGo]
      | succ p =>
        have hlen : ((x :: xs).drop per).length ≤ fuel := by
          simp only [List.length_drop, List.length_cons] at hl ⊢
          omega
        calc (chunksGo per (fuel + 1) (x :: xs))[p + 1]?
            = (chunksGo per fuel ((x :: xs).drop per))[p]? := by
              simp [chunksGo]
          _ = if 0 < (((x :: xs).drop per).drop (p * per)).length
              then some ((((x :: xs).drop per).drop (p * per)).take per)
              else none := ih _ hlen p
          _ = _ := by
              rw [List.drop_drop, Nat.succ_mul, Nat.add_comm (p * per) per]

theorem pageCell_none (pages : List (List (Option String))) (p j : ℕ)
    (h : pages[p]? = none) : pageCell pages p j = none := by
  unfold pageCell
  rw [h]

theorem pageCell_some (pages : List (List (Option String))) (p j : ℕ)
    (pg : List (Option String)) (h : pages[p]? = some pg) :
    pageCell pages p j = (pg[j]?).getD none := by
  unfold pageCell
  rw [h]

theorem create_layout_cell (files : List String) (desc : String)
    (copies p j : ℕ) (hj : j < gridSize desc) :
    pageCell (create_layout files desc copies) p j =
      (expand files copies)[p * gridSize desc + j]? := by
  have hper := gridSize_pos desc
  have hp : (create_layout files desc copies)[p]? =
      Option.map
        (fun batch => (List.range (gridSize desc)).map (fun k => batch[k]?))
        (if 0 < ((expand files copies).drop (p * gridSize desc)).length
         then some (((expand files copies).drop (p * gridSize desc)).take
           (gridSize desc))
         else none) := by
    simp only [create_layout, List.getElem?_map,
      chunksGo_getElem _ hper _ _ le_rfl p]
  by_cases hlt : 0 < ((expand files copies).drop (p * gridSize desc)).length
  · rw [if_pos hlt, Option.map_some'] at hp
    rw [pageCell_some _ _ _ _ hp, List.getElem?_map, List.getElem?_range hj,
      Option.map_some', Option.getD_some, List.getElem?_take, if_pos hj,
      List.getElem?_drop]
  · rw [if_neg hlt, Option.map_none'] at hp
    rw [pageCell_none _ _ _ hp]
    have hle : (expand files copies).length ≤ p * gridSize desc + j := by
      simp only [List.length_drop] at hlt
      omega
    exact (List.getElem?_eq_none hle).symm

/-- **C8**: `create_layout` on one document `A`, three copies per
document, grid `1×2` produces exactly two pages — page 1 with `A` in
both cells, page 2 with `A` in the first cell and the second cell blank
— and in general the cell at linear index `j` of page `p` holds element
`p·(rows·cols) + j` of the expanded (copies-repeated) sequence, with
linear index `j = r·cols + c` rendered at grid position `(r, c)`
(row-major `divmod`). -/
theorem create_layout_spec :
    create_layout ["A"] "1×2" 3 =
      [[some "A", some "A"], [some "A", none]] ∧
    (∀ (files : List String) (desc : String) (copies p j : ℕ),
      j < gridSize desc →
      pageCell (create_layout files desc copies) p j =
        (expand files copies)[p * gridSize desc + j]?) ∧
    (∀ (desc : String) (r c : ℕ), c < (layout_map desc).2 →
      posOf (layout_map desc).2 (r * (layout_map desc).2 + c) = (r, c)) := by
  refine ⟨by decide, create_layout_cell, fun desc r c hc => ?_⟩
  have hcols : 0 < (layout_map desc).2 := lt_of_le_of_lt (Nat.zero_le c) hc
  unfold posOf
  rw [Nat.add_comm (r * (layout_map desc).2) c,
    Nat.add_mul_div_right c r hcols, Nat.div_eq_of_lt hc,
    Nat.add_mul_mod_self_right, Nat.mod_eq_of_lt hc]
  simp

/-- Witness for C8: cell 3 of page 0 under grid `2×2` with two copies of
each of two documents holds the second document. -/
theorem create_layout_spec_witness :
    pageCell (create_layout ["A", "B"] "2×2" 2) 0 3 = some "B" := by
  have h := create_layout_spec.2.1 ["A", "B"] "2×2" 2 0 3 (by decide)
  rw [h]
  decide

/-! ## Order lemmas for the lexicographic string comparison -/

theorem charsLt_irrefl : ∀ a : List Char, charsLt a a = false
  | [] => rfl
  | x :: s => by simp [charsLt, charsLt_irrefl s]

theorem charsLt_asymm : ∀ a b : List Char,
    charsLt a b = true → charsLt b a = false
  | [], [] => by simp [charsLt]
  | [], _ :: _ => by simp [charsLt]
  | _ :: _, [] => by simp [charsLt]
  | x :: s, y :: t => by
    intro h
    rcases lt_trichotomy x y with hlt | heq | hgt
    · simp [charsLt, hlt, lt_asymm hlt]
    · subst heq
      have h' : charsLt s t = true := by simpa [charsLt] using h
      simp [charsLt, charsLt_asymm s t h']
    · exact absurd h (by simp [charsLt, hgt, lt_asymm hgt])

theorem charsLt_trans : ∀ a b c : List Char, charsLt a b = true →
    charsLt b c = true → charsLt a c = true
  | a, [], _ => by
    intro h1 _
    cases a <;> simp [charsLt] at h1
  | [], _ :: _, c => by
    intro _ h2
    cases c with
    | nil => simp [charsLt] at h2
    | cons z u => simp [charsLt]
  | x :: s, y :: t, [] => by
    intro _ h2
    simp [charsLt] at h2
  | x :: s, y :: t, z :: u => by
    intro h1 h2
    by_cases hxy : x < y
    · by_cases hyz : y < z
      · simp [charsLt, lt_trans hxy hyz]
      · by_cases hzy : z < y
        · simp [charsLt, hyz, hzy] at h2
        · have heq : y = z := le_antisymm (not_lt.mp hzy) (not_lt.mp hyz)
          subst heq
          simp [charsLt, hxy]
    · by_cases hyx : y < x
      · simp [charsLt, hxy, hyx] at h1
      · have heq : x = y := le_antisymm (not_lt.mp hyx) (not_lt.mp hxy)
        subst heq
        have h1' : charsLt s t = true := by
          simpa [charsLt, lt_irrefl] using h1
        by_cases hxz : x < z
        · simp [charsLt, hxz]
        · by_cases hzx : z < x
          · simp [charsLt, hxz, hzx] at h2
          · have heq2 : x = z := le_antisymm (not_lt.mp hzx) (not_lt.mp hxz)
            subst heq2
            have h2' : charsLt t u = true := by
              simpa [charsLt, lt_irrefl] using h2
            simp [charsLt, lt_irrefl, charsLt_trans s t u h1' h2']

theorem charsLt_connex : ∀ a b : List Char, charsLt a b = false →
    charsLt b a = false → a = b
  | [], [] => fun _ _ => rfl
  | [], _ :: _ => by
    intro h1 _
    simp [charsLt] at h1
  | _ :: _, [] => by
    intro _ h2
    simp [charsLt] at h2
  | x :: s, y :: t => by
    intro h1 h2
    by_cases hxy : x < y
    · simp [charsLt, hxy] at h1
    · by_cases hyx : y < x
      · simp [charsLt, hyx] at h2
      · have heq : x = y := le_antisymm (not_lt.mp hyx) (not_lt.mp hxy)
        subst heq
        have h1' : charsLt s t = false := by
          simpa [charsLt, lt_irrefl] using h1
        have h2' : charsLt t s = false := by
          simpa [charsLt, lt_irrefl] using h2
        rw [charsLt_connex s t h1' h2']

theorem strLt_irrefl (a : String) : strLt a a = false := charsLt_irrefl _

theorem strLt_asymm {a b : String} (h : strLt a b = true) :
    strLt b a = false :=
  charsLt_asymm _ _ h

theorem strLt_trans {a b c : String} (h1 : strLt a b = true)
    (h2 : strLt b c = true) : strLt a c = true :=
  charsLt_trans _ _ _ h1 h2

theorem strLt_connex {a b : String} (h1 : strLt a b = false)
    (h2 : strLt b a = false) : a = b := by
  have h3 := charsLt_connex _ _ h1 h2
  cases a with
  | mk da =>
    cases b with
    | mk db =>
      have h4 : da = db := h3
      rw [h4]

theorem strLt_negtrans {a b c : String} (h1 : strLt a b = false)
    (h2 : strLt b c = false) : strLt a c = false := by
  cases hba : strLt b a with
  | true =>
    cases hac : strLt a c with
    | true =>
      rw [strLt_trans hba hac] at h2
      exact h2.symm ▸ rfl
    | false => rfl
  | false =>
    have hab := strLt_connex h1 hba
    subst hab
    exact h2

/-! ## Lemmas about the grouped-mode sort and grouping -/

theorem rowLe_iff (r1 r2 : Row) :
    rowLe r1 r2 = true ↔
      (strLt r1.sellerName r2.sellerName = true ∨
        (r1.sellerName = r2.sellerName ∧
          strLt (r1.printDate.getD "") (r2.printDate.getD "") = false)) := by
  simp [rowLe, Bool.or_eq_true, Bool.and_eq_true, beq_iff_eq,
    Bool.not_eq_true']

theorem rowLe_total (r1 r2 : Row) :
    rowLe r1 r2 = true ∨ rowLe r2 r1 = true := by
  rw [rowLe_iff, rowLe_iff]
  by_cases h12 : strLt r1.sellerName r2.sellerName = true
  · exact Or.inl (Or.inl h12)
  · by_cases h21 : strLt r2.sellerName r1.sellerName = true
    · exact Or.inr (Or.inl h21)
    · have heq : r1.sellerName = r2.sellerName :=
        strLt_connex (by simpa using h12) (by simpa using h21)
      by_cases hd : strLt (r1.printDate.getD "") (r2.printDate.getD "")
          = true
      · exact Or.inr (Or.inr ⟨heq.symm, strLt_asymm hd⟩)
      · exact Or.inl (Or.inr ⟨heq, by simpa using hd⟩)

theorem rowLe_trans {r1 r2 r3 : Row} (h1 : rowLe r1 r2 = true)
    (h2 : rowLe r2 r3 = true) : rowLe r1 r3 = true := by
  rw [rowLe_iff] at h1 h2 ⊢
  rcases h1 with h1 | ⟨he1, hd1⟩
  · rcases h2 with h2 | ⟨he2, hd2⟩
    · exact Or.inl (strLt_trans h1 h2)
    · exact Or.inl (he2 ▸ h1)
  · rcases h2 with h2 | ⟨he2, hd2⟩
    · exact Or.inl (he1 ▸ h2)
    · exact Or.inr ⟨he1.trans he2, strLt_negtrans hd1 hd2⟩

theorem rowLe_seller {r1 r2 : Row} (h : rowLe r1 r2 = true) :
    strLt r2.sellerName r1.sellerName = false := by
  rw [rowLe_iff] at h
  rcases h with h | ⟨he, _⟩
  · exact strLt_asymm h
  · rw [he]
    exact strLt_irrefl _

theorem mem_insertRow {a x : Row} :
    ∀ {l : List Row}, x ∈ insertRow a l → x = a ∨ x ∈ l := by
  intro l
  induction l with
  | nil => simp [insertRow]
  | cons b t ih =>
    by_cases hb : rowLe a b = true
    · simp only [insertRow, if_pos hb, List.mem_cons]
      tauto
    · simp only [insertRow, if_neg hb, List.mem_cons]
      intro h
      rcases h with h | h
      · exact Or.inr (Or.inl h)
      · rcases ih h with h' | h'
        · exact Or.inl h'
        · exact Or.inr (Or.inr h')

theorem insertRow_perm (a : Row) :
    ∀ l : List Row, (insertRow a l).Perm (a :: l) := by
  intro l
  induction l with
  | nil => simp [insertRow]
  | cons b t ih =>
    by_cases hb : rowLe a b = true
    · rw [insertRow, if_pos hb]
    · rw [insertRow, if_neg hb]
      exact (ih.cons b).trans (List.Perm.swap a b t)

theorem sortRows_perm : ∀ l : List Row, (sortRows l).Perm l
  | [] => List.Perm.refl []
  | a :: t => (insertRow_perm a (sortRows t)).trans ((sortRows_perm t).cons a)

theorem insertRow_pairwise (a : Row) {l : List Row}
    (h : l.Pairwise (fun x y => rowLe x y = true)) :
    (insertRow a l).Pairwise (fun x y => rowLe x y = true) := by
  induction l with
  | nil => simp [insertRow]
  | cons b t ih =>
    rw [List.pairwise_cons] at h
    by_cases hb : rowLe a b = true
    · rw [insertRow, if_pos hb, List.pairwise_cons]
      refine ⟨fun x hx => ?_, List.pairwise_cons.2 h⟩
      rcases List.mem_cons.1 hx with rfl | hx
      · exact hb
      · exact rowLe_trans hb (h.1 x hx)
    · rw [insertRow, if_neg hb, List.pairwise_cons]
      refine ⟨fun x hx => ?_, ih h.2⟩
      rcases mem_insertRow hx with rfl | hx
      · rcases rowLe_total b x with hba | hab
        · exact hba
        · exact absurd hab hb
      · exact h.1 x hx

theorem sortRows_pairwise :
    ∀ l : List Row, (sortRows l).Pairwise (fun x y => rowLe x y = true)
  | [] => List.Pairwise.nil
  | a :: t => insertRow_pairwise a (sortRows_pairwise t)

theorem mem_dedupFirstAux :
    ∀ (l seen : List String) (x : String),
      x ∈ dedupFirstAux seen l ↔ (x ∈ l ∧ x ∉ seen) := by
  intro l
  induction l with
  | nil => simp [dedupFirstAux]
  | cons a t ih =>
    intro seen x
    by_cases ha : a ∈ seen
    · rw [dedupFirstAux, if_pos ha, ih]
      constructor
      · exact fun ⟨h1, h2⟩ => ⟨List.mem_cons_of_mem a h1, h2⟩
      · rintro ⟨h1, h2⟩
        rcases List.mem_cons.1 h1 with rfl | h3
        · exact absurd ha h2
        · exact ⟨h3, h2⟩
    · rw [dedupFirstAux, if_neg ha]
      constructor
      · intro hx
        rcases List.mem_cons.1 hx with rfl | hx2
        · exact ⟨List.mem_cons_self _ _, ha⟩
        · obtain ⟨h1, h2⟩ := (ih (a :: seen) x).1 hx2
          exact ⟨List.mem_cons_of_mem a h1,
            fun hs => h2 (List.mem_cons_of_mem a hs)⟩
      · rintro ⟨h1, h2⟩
        rcases List.mem_cons.1 h1 with rfl | h3
        · exact List.mem_cons_self _ _
        · by_cases hxa : x = a
          · subst hxa
            exact List.mem_cons_self _ _
          · refine List.mem_cons_of_mem a ((ih (a :: seen) x).2 ⟨h3, ?_⟩)
            intro hs
            rcases List.mem_cons.1 hs with h4 | h4
            · exact hxa h4
            · exact h2 h4

theorem sublist_dedupFirstAux :
    ∀ (l seen : List String), (dedupFirstAux seen l).Sublist l := by
  intro l
  induction l with
  | nil => simp [dedupFirstAux]
  | cons a t ih =>
    intro seen
    by_cases ha : a ∈ seen
    · rw [dedupFirstAux, if_pos ha]
      exact (ih seen).cons a
    · rw [dedupFirstAux, if_neg ha]
      exact (ih (a :: seen)).cons₂ a

theorem nodup_dedupFirstAux :
    ∀ (l seen : List String), (dedupFirstAux seen l).Nodup := by
  intro l
  induction l with
  | nil => simp [dedupFirstAux]
  | cons a t ih =>
    intro seen
    by_cases ha : a ∈ seen
    · rw [dedupFirstAux, if_pos ha]
      exact ih seen
    · rw [dedupFirstAux, if_neg ha, List.nodup_cons]
      refine ⟨fun hm => ?_, ih (a :: seen)⟩
      exact ((mem_dedupFirstAux t (a :: seen) a).1 hm).2 (by simp)

theorem filterMap_subtotal (names : List String) (f : String → List Row) :
    ((names.flatMap (fun n =>
      (f n).map DisplayRow.data ++ [mkSubtotal n (f n)])).filterMap
        subtotalSeller) = names := by
  induction names with
  | nil => rfl
  | cons n ns ih =>
    rw [List.flatMap_cons, List.filterMap_append, List.filterMap_append, ih]
    have h1 : ((f n).map DisplayRow.data).filterMap subtotalSeller = [] := by
      simp [List.filterMap_cons, subtotalSeller]
    rw [h1]
    simp [subtotalSeller, mkSubtotal]

theorem groupedDisplay_eq (ledger : Ledger) (s d : String) :
    groupedDisplay ledger s d =
      (sellerOrder (sortRows (get_data_frame ledger s d))).flatMap (fun n =>
        ((sortRows (get_data_frame ledger s d)).filter
          (fun r => r.sellerName == n)).map DisplayRow.data ++
        [mkSubtotal n ((sortRows (get_data_frame ledger s d)).filter
          (fun r => r.sellerName == n))]) := rfl

theorem groupedDisplay_subtotals (ledger : Ledger) (s d : String) :
    (groupedDisplay ledger s d).filterMap subtotalSeller =
      sellerOrder (sortRows (get_data_frame ledger s d)) := by
  rw [groupedDisplay_eq]
  exact filterMap_subtotal _ _

/-! ## Claim about the grouped query mode (C3) -/

/-- **C3** (counterexample): in the ledger `sampleLedger` seller `"B"`
is encountered before seller `"A"` during ledger iteration, yet the
grouped display emits the `"A"` bucket first — the buckets follow the
sort, not first-encountered order. -/
theorem grouped_display_order_counterexample :
    (get_data_frame sampleLedger "" "").map Row.sellerName = ["B", "A"] ∧
    dedupFirst ((get_data_frame sampleLedger "" "").map Row.sellerName) =
      ["B", "A"] ∧
    (groupedDisplay sampleLedger "" "").filterMap subtotalSeller =
      ["A", "B"] ∧
    (["A", "B"] : List String) ≠ ["B", "A"] := by
  decide

/-- **C3** (amended): in grouped query mode the seller buckets are
emitted in strictly ascending lexicographic order of seller name (the
`sort_values` order, not first-encountered order), and the output is
exactly, for each emitted seller in that order, that seller's sorted
data rows followed by its one subtotal row over exactly those rows. -/
theorem grouped_display_structure (ledger : Ledger)
    (sellerRaw dateRaw : String) :
    ((groupedDisplay ledger sellerRaw dateRaw).filterMap
      subtotalSeller).Pairwise (fun a b => strLt a b = true) ∧
    groupedDisplay ledger sellerRaw dateRaw =
      ((groupedDisplay ledger sellerRaw dateRaw).filterMap
        subtotalSeller).flatMap (fun n =>
          ((sortRows (get_data_frame ledger sellerRaw dateRaw)).filter
            (fun r => r.sellerName == n)).map DisplayRow.data ++
          [mkSubtotal n
            ((sortRows (get_data_frame ledger sellerRaw dateRaw)).filter
              (fun r => r.sellerName == n))]) := by
  constructor
  · rw [groupedDisplay_subtotals]
    have hpw : ((sortRows (get_data_frame ledger sellerRaw dateRaw)).map
        Row.sellerName).Pairwise (fun a b => strLt b a = false) :=
      (List.pairwise_map).2
        ((sortRows_pairwise _).imp (fun h => rowLe_seller h))
    have hle := hpw.sublist
      (sublist_dedupFirstAux
        ((sortRows (get_data_frame ledger sellerRaw dateRaw)).map
          Row.sellerName) [])
    have hnd : (sellerOrder
        (sortRows (get_data_frame ledger sellerRaw dateRaw))).Nodup :=
      nodup_dedupFirstAux _ []
    refine (hle.and hnd).imp (fun {a b} h => ?_)
    cases hab : strLt a b with
    | true => rfl
    | false => exact absurd (strLt_connex hab h.1) h.2
  · rw [groupedDisplay_subtotals, groupedDisplay_eq]

/-! ## Claim about the export formatter (C9) -/

theorem get_data_frame_eq_filter (ledger : Ledger) (s d : String) :
    get_data_frame ledger s d =
      (ledger.filter (fun p => filterMatch p.2 s d)).flatMap
        (fun p => (p.2.items.getD []).map (flattenRow p.2)) := by
  induction ledger with
  | nil => rfl
  | cons p t ih =>
    simp only [get_data_frame, List.flatMap_cons, List.filter_cons] at ih ⊢
    cases hp : filterMatch p.2 s d with
    | true => simp [hp, ih]
    | false => simp [hp, ih]

theorem countP_data_map (l : List Row) :
    (l.map DisplayRow.data).countP isDataRow = l.length := by
  induction l with
  | nil => rfl
  | cons r t ih => simp [List.countP_cons, isDataRow, ih]

theorem countP_groupedDisplay (names : List String) (f : String → List Row) :
    (names.flatMap (fun n =>
      (f n).map DisplayRow.data ++ [mkSubtotal n (f n)])).countP isDataRow
      = (names.map (fun n => (f n).length)).sum := by
  induction names with
  | nil => rfl
  | cons n ns ih =>
    rw [List.flatMap_cons, List.countP_append, List.countP_append, ih,
      countP_data_map]
    simp [List.countP_cons, isDataRow, mkSubtotal]

theorem length_filter_split (p : Row → Bool) (l : List Row) :
    (l.filter p).length + (l.filter (fun x => !p x)).length = l.length := by
  induction l with
  | nil => rfl
  | cons x t ih =>
    cases hx : p x <;> simp [List.filter_cons, hx] <;> omega

theorem length_filter_partition (names : List String) :
    ∀ rows : List Row, names.Nodup →
      (∀ r ∈ rows, r.sellerName ∈ names) →
      (names.map (fun n =>
        (rows.filter (fun r => r.sellerName == n)).length)).sum
        = rows.length := by
  induction names with
  | nil =>
    intro rows _ hall
    cases rows with
    | nil => rfl
    | cons r t => exact absurd (hall r (List.mem_cons_self r t)) (by simp)
  | cons n ns ih =>
    intro rows hnd hall
    rw [List.nodup_cons] at hnd
    have hrest : ∀ m ∈ ns,
        rows.filter (fun r => r.sellerName == m) =
          (rows.filter (fun r => !(r.sellerName == n))).filter
            (fun r => r.sellerName == m) := by
      intro m hm
      rw [List.filter_filter]
      apply List.filter_congr
      intro r _
      cases hrm : r.sellerName == m with
      | false => simp
      | true =>
        have hsm : r.sellerName = m := by simpa using hrm
        have hmn : m ≠ n := fun hmn => hnd.1 (hmn ▸ hm)
        have hn : (r.sellerName == n) = false := by
          rw [beq_eq_false_iff_ne, hsm]
          exact hmn
        simp [hn]
    simp only [List.map_cons, List.sum_cons]
    rw [List.map_congr_left (fun m hm => congrArg List.length (hrest m hm)),
      ih (rows.filter (fun r => !(r.sellerName == n))) hnd.2 ?_]
    · exact length_filter_split _ rows
    · intro r hr
      rw [List.mem_filter] at hr
      rcases List.mem_cons.1 (hall r hr.1) with heq | hm
      · exfalso
        have h2 := hr.2
        rw [heq] at h2
        simp at h2
      · exact hm

theorem sellerOrder_nodup (rows : List Row) : (sellerOrder rows).Nodup :=
  nodup_dedupFirstAux _ []

theorem seller_mem_sellerOrder {rows : List Row} {r : Row} (h : r ∈ rows) :
    r.sellerName ∈ sellerOrder rows :=
  (mem_dedupFirstAux _ _ _).2 ⟨List.mem_map_of_mem _ h, by simp⟩

/-- **C9**: the exported rows are exactly the ungrouped filtered
flattened rows — one projected row per line item of each record passing
the filters, in ledger order, with a structurally absent column filled
empty by `projectRow` — their count is the sum of line-item counts over
the filtered records, and they are in bijection with the data rows of
the grouped display: no subtotal/summary row is ever exported and the
grouping toggle (which only adds subtotal rows to the display) plays no
part. -/
theorem export_excel_rows_spec (ledger : Ledger)
    (sellerRaw dateRaw : String) :
    export_excel_rows ledger sellerRaw dateRaw =
      (ledger.filter (fun p => filterMatch p.2 sellerRaw dateRaw)).flatMap
        (fun p => (p.2.items.getD []).map
          (fun it => projectRow (flattenRow p.2 it))) ∧
    (export_excel_rows ledger sellerRaw dateRaw).length =
      ((ledger.filter (fun p => filterMatch p.2 sellerRaw dateRaw)).map
        (fun p => (p.2.items.getD []).length)).sum ∧
    (groupedDisplay ledger sellerRaw dateRaw).countP isDataRow =
      (export_excel_rows ledger sellerRaw dateRaw).length := by
  have h1 : export_excel_rows ledger sellerRaw dateRaw =
      (ledger.filter (fun p => filterMatch p.2 sellerRaw dateRaw)).flatMap
        (fun p => (p.2.items.getD []).map
          (fun it => projectRow (flattenRow p.2 it))) := by
    unfold export_excel_rows
    rw [get_data_frame_eq_filter, List.map_flatMap]
    simp only [List.map_map]
    rfl
  refine ⟨h1, ?_, ?_⟩
  · rw [h1, List.length_flatMap]
    apply congrArg List.sum
    apply List.map_congr_left
    intro p _
    simp [Function.comp, List.length_map]
  · rw [groupedDisplay_eq, countP_groupedDisplay,
      length_filter_partition _ _ (sellerOrder_nodup _)
        (fun r hr => seller_mem_sellerOrder hr),
      (sortRows_perm _).length_eq]
    unfold export_excel_rows
    rw [List.length_map]
